import Mathlib

/-
  Verification development for the demo_db repository.

  Shallow embedding of the parts of the source the claims concern:
  Python dicts become ordered association lists, exceptions become
  Except values (mutations performed before a raise are kept, as in
  Python, by returning the partially mutated state next to the error),
  Python sets become duplicate-free lists.
-/

namespace DemoDb

/-! ## Ordered dictionaries (Python dict semantics on association lists) -/

deriving instance DecidableEq for Except

/-- Lookup of the first binding of key k, as Python `d.get(k)` / `d[k]`. -/
def dictGet [DecidableEq α] : List (α × β) → α → Option β
  | [], _ => none
  | (k0, v0) :: rest, k => if k0 = k then some v0 else dictGet rest k

/-- Python `k in d`. -/
def dictContains [DecidableEq α] (l : List (α × β)) (k : α) : Bool :=
  (dictGet l k).isSome

/-- Python `d[k] = v`: replace the binding in place when the key is present,
append it otherwise. -/
def dictInsert [DecidableEq α] : List (α × β) → α → β → List (α × β)
  | [], k, v => [(k, v)]
  | (k0, v0) :: rest, k, v =>
      if k0 = k then (k, v) :: rest else (k0, v0) :: dictInsert rest k v

/-- Python `del d[k]`: error (KeyError) when the key is absent. -/
def dictDel [DecidableEq α] : List (α × β) → α → Except Unit (List (α × β))
  | [], _ => .error ()
  | (k0, v0) :: rest, k =>
      if k0 = k then .ok rest
      else (dictDel rest k).map (fun l => (k0, v0) :: l)

/-- ASCII lowercasing of one character, as Python `str.lower` acts on the
identifier names the engine handles. (`String.toLower` itself does not reduce
inside the kernel, so the embedding carries its own executable copy.) -/
def lowerChar (c : Char) : Char :=
  if c.isUpper then Char.ofNat (c.toNat + 32) else c

/-- Python `s.lower()` on ASCII identifier strings. -/
def lowerStr (s : String) : String := String.mk (s.data.map lowerChar)

/-! ## Tables and the catalog (src/catalog.py) -/

/-- Embeds `Table` (src/catalog.py). `column_datatypes` holds the names of the
Python type objects; the claims never inspect them. -/
structure TableM where
  table_name : String
  column_names : List String
  column_datatypes : List String
  page_id : List Nat
deriving DecidableEq, Repr

/-- Embeds `Catalog` (src/catalog.py). `borrowed_page_ids` keys are
`Option Nat`: `some tid` models an integer transaction id, `none` models the
imported module object `transaction` that line 117 of src/catalog.py uses as
a key. -/
structure Catalog where
  tables : List (String × TableM)
  free_page_ids : List Nat
  max_page_id : Nat
  borrowed_page_ids : List (Option Nat × List Nat)
deriving DecidableEq, Repr

/-- Embeds `Catalog.__init__`: keys the tables dict by `table.table_name`
verbatim, starts with an empty free list, and computes
`max([id for table in tables for id in table.page_id])`, which raises
ValueError when no table has a page (Python `max` of an empty sequence). -/
def Catalog.init (ts : List TableM) : Except Unit Catalog :=
  let pids := (ts.map (fun t => t.page_id)).flatten
  if pids.isEmpty then .error ()
  else .ok
    { tables := ts.foldl (fun d t => dictInsert d t.table_name t) []
      free_page_ids := []
      max_page_id := pids.foldl max 0
      borrowed_page_ids := [] }

/-- Embeds `Catalog.get_table_by_name`: lowercases the searched name and
raises when it is absent. -/
def Catalog.get_table_by_name (c : Catalog) (name : String) : Except Unit TableM :=
  match dictGet c.tables (lowerStr name) with
  | some t => .ok t
  | none => .error ()

/-- Embeds `Catalog.drop_table_by_name`. The source first extends the free
list with the table's pages and only then deletes the dict entry under
`table.table_name`; when that `del` raises KeyError the free-list extension
has already happened, so the partially mutated catalog is returned with the
error. -/
def Catalog.drop_table_by_name (c : Catalog) (name : String) :
    Except Unit Unit × Catalog :=
  match c.get_table_by_name name with
  | .error e => (.error e, c)
  | .ok t =>
      let c1 := { c with free_page_ids := c.free_page_ids ++ t.page_id }
      match dictDel c1.tables t.table_name with
      | .ok ts => (.ok (), { c1 with tables := ts })
      | .error e => (.error e, c1)

/-- Embeds `Catalog.get_free_page_id`. The source pops the head of the free
list (or bumps `max_page_id`), then — because of the typo at line 117 — stores
an empty list under the module object `transaction` (key `none` here) instead
of under `tranaction_id`, and finally appends to
`borrowed_page_ids[tranaction_id]`, which raises KeyError whenever `some tid`
is not already a key. -/
def Catalog.get_free_page_id (c : Catalog) (tid : Nat) :
    Except Unit Nat × Catalog :=
  let pc :=
    match c.free_page_ids with
    | p :: rest => (p, { c with free_page_ids := rest })
    | [] => (c.max_page_id + 1, { c with max_page_id := c.max_page_id + 1 })
  let page_id := pc.1
  let c1 := pc.2
  let c2 :=
    if dictContains c1.borrowed_page_ids (some tid) then c1
    else { c1 with borrowed_page_ids := dictInsert c1.borrowed_page_ids none [] }
  match dictGet c2.borrowed_page_ids (some tid) with
  | some l =>
      (.ok page_id,
       { c2 with
          borrowed_page_ids := dictInsert c2.borrowed_page_ids (some tid) (l ++ [page_id]) })
  | none => (.error (), c2)

/-- Embeds `Catalog.return_page_ids`: unconditionally appends. -/
def Catalog.return_page_ids (c : Catalog) (ids : List Nat) : Catalog :=
  { c with free_page_ids := c.free_page_ids ++ ids }

/-- Embeds `Catalog.add_new_table`: keys by the lowercased name, raises when
that key already exists. -/
def Catalog.add_new_table (c : Catalog) (t : TableM) : Except Unit Unit × Catalog :=
  let name := lowerStr t.table_name
  if dictContains c.tables name then (.error (), c)
  else (.ok (), { c with tables := dictInsert c.tables name t })

/-- Embeds `Catalog.create_or_replace_table`: keys by `table.table_name`
verbatim (the source does not lowercase here). -/
def Catalog.create_or_replace_table (c : Catalog) (t : TableM) : Catalog :=
  { c with tables := dictInsert c.tables t.table_name t }

/-! ## Shadow tables and transactions (src/transaction.py) -/

/-- Modelled from the spec: `ShadowTable` is imported by src/transaction.py
from catalog.py, but src/catalog.py does not define it (the defining code is
missing from src/). Spec section 3: a ShadowTable "has the same shape as a
Table plus a back-link to its transaction"; the back-link is dropped here as
spec section 9 prescribes for a re-architecture. `to_shadow_table` copies a
Table's metadata and page-id list (spec 4.4.1: "the transaction copies the
Table into a ShadowTable"), and `from_shadow_table` realizes a Table with the
shadow's fields (spec 4.4.4: "the Table entry now references the new page-id
list"). -/
structure ShadowTable where
  table_name : String
  column_names : List String
  column_datatypes : List String
  page_id : List Nat
deriving DecidableEq, Repr

/-- Modelled from the spec: copy of the table's metadata and page list. -/
def TableM.to_shadow_table (t : TableM) : ShadowTable :=
  { table_name := t.table_name
    column_names := t.column_names
    column_datatypes := t.column_datatypes
    page_id := t.page_id }

/-- Modelled from the spec: realize a Table from a shadow table's fields. -/
def from_shadow_table (st : ShadowTable) : TableM :=
  { table_name := st.table_name
    column_names := st.column_names
    column_datatypes := st.column_datatypes
    page_id := st.page_id }

/-- Embeds the mutable state of `Transaction` (src/transaction.py).
`shadow_tables` maps a name to `none` for a tombstone (the source stores
Python `None` for a dropped table) or to `some` shadow table.
`obtained_page_ids` is a Python set, kept as a duplicate-free list. -/
structure Txn where
  id : Int
  shadow_tables : List (String × Option ShadowTable)
  obtained_page_ids : List Nat
  freed_page_ids : List Nat
  has_terminated : Bool
deriving DecidableEq, Repr

/-- Embeds `Transaction.__init__` (the buffer manager and catalog are passed
separately to each operation). -/
def Txn.new (id : Int) : Txn :=
  { id := id
    shadow_tables := []
    obtained_page_ids := []
    freed_page_ids := []
    has_terminated := false }

/-- Embeds `Transaction.get_table_by_name` (src/transaction.py lines 29-32):

    table = self.shadow_tables.get(name.lower())
    if table: return table
    return self.catalog.get_table_by_name(name)

A tombstone (`None`) is falsy in Python, so `if table:` falls through to the
catalog lookup; only a present ShadowTable object (always truthy) is
returned from the shadow map. -/
def Txn.get_table_by_name (t : Txn) (c : Catalog) (name : String) :
    Except Unit (TableM ⊕ ShadowTable) :=
  match dictGet t.shadow_tables (lowerStr name) with
  | some (some st) => .ok (.inr st)
  | some none => (c.get_table_by_name name).map .inl
  | none => (c.get_table_by_name name).map .inl

/-- Embeds `Transaction.drop_table_by_name` (src/transaction.py lines 80-83):
looks the table up (shadow first, catalog second), appends its pages to
`freed_page_ids` and stores a tombstone under the looked-up object's
`table_name`. -/
def Txn.drop_table_by_name (t : Txn) (c : Catalog) (name : String) :
    Except Unit Txn :=
  match t.get_table_by_name c name with
  | .error e => .error e
  | .ok tbl =>
      let pids := match tbl with | .inl x => x.page_id | .inr s => s.page_id
      let tname := match tbl with | .inl x => x.table_name | .inr s => s.table_name
      .ok { t with
              freed_page_ids := t.freed_page_ids ++ pids
              shadow_tables := dictInsert t.shadow_tables tname none }

/-- Embeds the loop of `Transaction.commit` (src/transaction.py lines
140-147): tombstones are dropped from the catalog when (and only when) their
name is a key of `catalog.tables`, other shadows are realized with
`create_or_replace_table`. An exception from `drop_table_by_name` aborts the
loop with the partially mutated catalog (the source does not catch it). -/
def commitTables : Catalog → List (String × Option ShadowTable) →
    Except Unit Unit × Catalog
  | c, [] => (.ok (), c)
  | c, (name, none) :: rest =>
      if dictContains c.tables name then
        match c.drop_table_by_name name with
        | (.ok _, c1) => commitTables c1 rest
        | (.error e, c1) => (.error e, c1)
      else commitTables c rest
  | c, (_, some st) :: rest =>
      commitTables (c.create_or_replace_table (from_shadow_table st)) rest

/-- Embeds `Transaction.commit` (src/transaction.py lines 131-149): a no-op
once `_has_terminated` is set; otherwise runs the shadow-table loop, returns
`freed_page_ids` to the catalog and sets the flag. When the loop raises, the
flag is not set and `return_page_ids` is not reached. -/
def Txn.commit (t : Txn) (c : Catalog) : Except Unit Unit × Txn × Catalog :=
  if t.has_terminated then (.ok (), t, c)
  else
    match commitTables c t.shadow_tables with
    | (.ok _, c1) =>
        (.ok (), { t with has_terminated := true },
         c1.return_page_ids t.freed_page_ids)
    | (.error e, c1) => (.error e, t, c1)

/-- Embeds `Transaction.rollback` (src/transaction.py lines 152-158): it
returns `obtained_page_ids` to the catalog's free list and sets
`_has_terminated`, without ever checking the flag first. -/
def Txn.rollback (t : Txn) (c : Catalog) : Txn × Catalog :=
  ({ t with has_terminated := true }, c.return_page_ids t.obtained_page_ids)

/-! ## The free-list / live-pages invariant and the catalog operation language
(claims about src/catalog.py and src/transaction.py state evolution) -/

/-- Free list disjoint from every live table's page list. -/
def FreeDisj (c : Catalog) : Prop :=
  ∀ p ∈ c.free_page_ids, ∀ e ∈ c.tables, p ∉ e.2.page_id

/-- Every stored table is keyed by its own `table_name`, and that name is
lowercase (spec section 3: table names are lowercase strings). -/
def NamesOk (c : Catalog) : Prop :=
  ∀ e ∈ c.tables, e.1 = e.2.table_name ∧ lowerStr e.2.table_name = e.2.table_name

/-- The tables dict has no duplicate keys (true of every Python dict). -/
def KeysNodup (c : Catalog) : Prop := (c.tables.map Prod.fst).Nodup

/-- Distinct tables own disjoint page lists (spec section 3: pages "belong to
exactly one table"). -/
def PagesSeparated (c : Catalog) : Prop :=
  ∀ e1 ∈ c.tables, ∀ e2 ∈ c.tables, e1.1 ≠ e2.1 → ∀ p ∈ e1.2.page_id, p ∉ e2.2.page_id

/-- Well-formedness of a catalog: the claimed disjointness invariant together
with the structural facts it needs to be preserved. -/
def GoodCat (c : Catalog) : Prop :=
  FreeDisj c ∧ NamesOk c ∧ KeysNodup c ∧ PagesSeparated c

/-- No id of `ids` belongs to a live table of `c`. -/
def NotLive (c : Catalog) (ids : List Nat) : Prop :=
  ∀ p ∈ ids, ∀ e ∈ c.tables, p ∉ e.2.page_id

/-- Argument precondition for `create_or_replace_table t`: lowercase name, no
page of `t` on the free list, and no page of `t` inside a table other than
the one being replaced. -/
def CorSafe (c : Catalog) (t : TableM) : Prop :=
  lowerStr t.table_name = t.table_name ∧
  ∀ p ∈ t.page_id, p ∉ c.free_page_ids ∧
    ∀ e ∈ c.tables, e.1 ≠ t.table_name → p ∉ e.2.page_id

/-- Argument precondition for `add_new_table t`: lowercase name, and no page
of `t` on the free list or inside any live table. -/
def AddSafe (c : Catalog) (t : TableM) : Prop :=
  lowerStr t.table_name = t.table_name ∧
  ∀ p ∈ t.page_id, p ∉ c.free_page_ids ∧ ∀ e ∈ c.tables, p ∉ e.2.page_id

instance (c : Catalog) : Decidable (FreeDisj c) :=
  inferInstanceAs (Decidable (∀ p ∈ c.free_page_ids, ∀ e ∈ c.tables, p ∉ e.2.page_id))

instance (c : Catalog) : Decidable (NamesOk c) :=
  inferInstanceAs (Decidable (∀ e ∈ c.tables,
    e.1 = e.2.table_name ∧ lowerStr e.2.table_name = e.2.table_name))

instance (c : Catalog) : Decidable (KeysNodup c) :=
  inferInstanceAs (Decidable (c.tables.map Prod.fst).Nodup)

instance (c : Catalog) : Decidable (PagesSeparated c) :=
  inferInstanceAs (Decidable (∀ e1 ∈ c.tables, ∀ e2 ∈ c.tables,
    e1.1 ≠ e2.1 → ∀ p ∈ e1.2.page_id, p ∉ e2.2.page_id))

instance (c : Catalog) : Decidable (GoodCat c) :=
  inferInstanceAs (Decidable (FreeDisj c ∧ NamesOk c ∧ KeysNodup c ∧ PagesSeparated c))

instance (c : Catalog) (ids : List Nat) : Decidable (NotLive c ids) :=
  inferInstanceAs (Decidable (∀ p ∈ ids, ∀ e ∈ c.tables, p ∉ e.2.page_id))

instance (c : Catalog) (t : TableM) : Decidable (CorSafe c t) :=
  inferInstanceAs (Decidable (lowerStr t.table_name = t.table_name ∧
    ∀ p ∈ t.page_id, p ∉ c.free_page_ids ∧
      ∀ e ∈ c.tables, e.1 ≠ t.table_name → p ∉ e.2.page_id))

instance (c : Catalog) (t : TableM) : Decidable (AddSafe c t) :=
  inferInstanceAs (Decidable (lowerStr t.table_name = t.table_name ∧
    ∀ p ∈ t.page_id, p ∉ c.free_page_ids ∧ ∀ e ∈ c.tables, p ∉ e.2.page_id))

/-- Precondition for a commit: each realized shadow table satisfies the
`create_or_replace_table` precondition at the intermediate catalog state the
commit loop reaches it in, and the freed ids are not live in the final state.
The intermediate states replayed here are exactly those `commitTables`
produces. -/
def CommitSafe (c : Catalog) :
    List (String × Option ShadowTable) → List Nat → Prop
  | [], freed => NotLive c freed
  | (name, none) :: rest, freed =>
      CommitSafe
        (if dictContains c.tables name then (c.drop_table_by_name name).2 else c)
        rest freed
  | (_, some st) :: rest, freed =>
      CorSafe c (from_shadow_table st) ∧
      CommitSafe (c.create_or_replace_table (from_shadow_table st)) rest freed

/-- The catalog-mutating operations named by the spec: the five Catalog
methods, plus the catalog effect of `Transaction.commit` (of a
not-yet-terminated transaction, determined by its shadow map and freed list)
and of `Transaction.rollback` (determined by its obtained set; a terminated
transaction's `commit` leaves the catalog untouched). -/
inductive CatOp where
  | addNewTable (t : TableM)
  | dropTable (name : String)
  | createOrReplace (t : TableM)
  | getFreePageId (tid : Nat)
  | returnPageIds (ids : List Nat)
  | txnCommit (shadow : List (String × Option ShadowTable)) (freed : List Nat)
  | txnRollback (obtained : List Nat)

/-- Catalog after one operation (keeping the partially mutated state an
exception leaves behind, exactly as the source does). -/
def applyOp (c : Catalog) : CatOp → Catalog
  | .addNewTable t => (c.add_new_table t).2
  | .dropTable n => (c.drop_table_by_name n).2
  | .createOrReplace t => c.create_or_replace_table t
  | .getFreePageId tid => (c.get_free_page_id tid).2
  | .returnPageIds ids => c.return_page_ids ids
  | .txnCommit sh freed =>
      match commitTables c sh with
      | (.ok _, c1) => c1.return_page_ids freed
      | (.error _, c1) => c1
  | .txnRollback ob => c.return_page_ids ob

/-- Argument precondition of one operation at a state. -/
def OpSafe (c : Catalog) : CatOp → Prop
  | .addNewTable t => AddSafe c t
  | .dropTable _ => True
  | .createOrReplace t => CorSafe c t
  | .getFreePageId _ => True
  | .returnPageIds ids => NotLive c ids
  | .txnCommit sh freed => CommitSafe c sh freed
  | .txnRollback ob => NotLive c ob

/-- Catalog after a sequence of operations. -/
def applySeq (c : Catalog) : List CatOp → Catalog
  | [] => c
  | op :: rest => applySeq (applyOp c op) rest

/-- Every operation of the sequence satisfies its precondition at the state
it runs in. -/
def SafeSeq (c : Catalog) : List CatOp → Prop
  | [] => True
  | op :: rest => OpSafe c op ∧ SafeSeq (applyOp c op) rest

/-- Decidability of `CommitSafe`, by the same recursion. -/
def decCommitSafe : (c : Catalog) → (sh : List (String × Option ShadowTable)) →
    (freed : List Nat) → Decidable (CommitSafe c sh freed)
  | c, [], freed => inferInstanceAs (Decidable (NotLive c freed))
  | c, (name, none) :: rest, freed =>
      decCommitSafe
        (if dictContains c.tables name then (c.drop_table_by_name name).2 else c)
        rest freed
  | c, (_, some st) :: rest, freed =>
      letI := decCommitSafe (c.create_or_replace_table (from_shadow_table st)) rest freed
      inferInstanceAs (Decidable
        (CorSafe c (from_shadow_table st) ∧
         CommitSafe (c.create_or_replace_table (from_shadow_table st)) rest freed))

instance (c : Catalog) (sh : List (String × Option ShadowTable)) (freed : List Nat) :
    Decidable (CommitSafe c sh freed) := decCommitSafe c sh freed

instance (c : Catalog) (op : CatOp) : Decidable (OpSafe c op) :=
  match op with
  | .addNewTable t => inferInstanceAs (Decidable (AddSafe c t))
  | .dropTable _ => inferInstanceAs (Decidable True)
  | .createOrReplace t => inferInstanceAs (Decidable (CorSafe c t))
  | .getFreePageId _ => inferInstanceAs (Decidable True)
  | .returnPageIds ids => inferInstanceAs (Decidable (NotLive c ids))
  | .txnCommit sh freed => decCommitSafe c sh freed
  | .txnRollback ob => inferInstanceAs (Decidable (NotLive c ob))

/-- Decidability of `SafeSeq`, by the same recursion. -/
def decSafeSeq : (c : Catalog) → (ops : List CatOp) → Decidable (SafeSeq c ops)
  | _, [] => .isTrue trivial
  | c, op :: rest =>
      letI := decSafeSeq (applyOp c op) rest
      inferInstanceAs (Decidable (OpSafe c op ∧ SafeSeq (applyOp c op) rest))

instance (c : Catalog) (ops : List CatOp) : Decidable (SafeSeq c ops) :=
  decSafeSeq c ops

/-! ## Page codec (src/catalog.py, classes PageHeader and Page) -/

/-- Modelled from the spec: `PAGE_SIZE` is imported from config.py, which is
not under src/. Spec section 3: "Fixed size PAGE_SIZE (target 4096 bytes,
configurable)". -/
def PAGE_SIZE : Nat := 4096

/-- Size of the packed `PageHeader` (two big-endian i32 fields, `_pack_ = 1`). -/
def HEADER_SIZE : Nat := 8

/-- Big-endian 4-byte encoding of a machine integer; ctypes stores the value
modulo 2^32, which taking each byte modulo 256 reproduces. -/
def be32 (n : Nat) : List Nat :=
  [n / 2 ^ 24 % 256, n / 2 ^ 16 % 256, n / 2 ^ 8 % 256, n % 256]

/-- Big-endian read of the first four bytes of a buffer (the unsigned value;
headers written by `Page.to_bytes` keep both fields below 2^31, where the
signed c_int32 reading coincides). -/
def beDecode32 : List Nat → Nat
  | b0 :: b1 :: b2 :: b3 :: _ => ((b0 * 256 + b1) * 256 + b2) * 256 + b3
  | _ => 0

/-- Embeds `Page` (src/catalog.py): id, row payload and dirty flag. The row
type is a parameter; `pickle.dumps` / `pickle.loads` are library functions
outside the repository, so the serializer pair is likewise passed as a
parameter to the codec. -/
structure PageS (α : Type) where
  page_id : Nat
  data : List α
  is_dirty : Bool
deriving DecidableEq, Repr

/-- Embeds `Page.to_bytes`: pickles the rows, raises MemoryError ("Page
overflow") when the payload exceeds `PAGE_SIZE - HEADER_SIZE`, otherwise
emits header plus payload zero-padded to `PAGE_SIZE`. -/
def Page.to_bytes (dumps : List α → List Nat) (p : PageS α) :
    Except Unit (List Nat) :=
  let pickled := dumps p.data
  let data_length := pickled.length
  if data_length > PAGE_SIZE - HEADER_SIZE then .error ()
  else
    let page_data := be32 p.page_id ++ be32 data_length ++ pickled
    .ok (page_data ++ List.replicate (PAGE_SIZE - page_data.length) 0)

/-- Embeds `Page.from_bytes`: parses the header (raising, as
`from_buffer_copy` does, when the buffer is shorter than the header), returns
an empty fresh page when `data_length` is zero (the source leaves `is_dirty`
at its default `True` there) and otherwise unpickles the payload slice. The
`page_id` field of the result is the argument, not the header field. -/
def Page.from_bytes (loads : List Nat → List α) (page_id : Nat)
    (raw : List Nat) : Except Unit (PageS α) :=
  if raw.length < HEADER_SIZE then .error ()
  else
    let data_length := beDecode32 (raw.drop 4)
    if data_length = 0 then
      .ok { page_id := page_id, data := [], is_dirty := true }
    else
      .ok { page_id := page_id,
            data := loads ((raw.drop HEADER_SIZE).take data_length),
            is_dirty := false }

/-! ## Schema and name resolution (src/schema.py) -/

/-- Embeds `ColumnIdentifier` (src/schema.py). The source field `alias` is
called `aliasName` here because `alias` is a reserved word in Lean. -/
structure ColumnIdentifier where
  name : String
  qualifier : Option String := none
  aliasName : Option String := none
  is_aggregate : Bool := false
deriving DecidableEq, Repr

/-- Embeds `ColumnIdentifier.matches_search`: an early `True` when no
qualifier is searched and the alias equals the searched name (Python
`None == s` is `False`, hence the `some`), otherwise qualifier match
conjoined with name match. -/
def ColumnIdentifier.matches_search (c : ColumnIdentifier)
    (search_qualifier : Option String) (search_name : String) : Bool :=
  if search_qualifier = none ∧ c.aliasName = some search_name then true
  else (search_qualifier.isNone || c.qualifier == search_qualifier)
        && (c.name == search_name)

/-- The two ValueError shapes `Schema.resolve` raises, told apart by their
message ("not found" versus "Ambiguous column"). -/
inductive ResolveErr where
  | unknownColumn
  | ambiguousColumn
deriving DecidableEq, Repr

/-- Embeds `Schema` (src/schema.py). -/
structure Schema where
  columns : List ColumnIdentifier
deriving DecidableEq, Repr

/-- Embeds `Schema.resolve`: collects the indices of all columns whose
`matches_search` is true, raises on zero or on more than one match, and
returns the single index otherwise. -/
def Schema.resolve (s : Schema) (search_qualifier : Option String)
    (search_name : String) : Except ResolveErr Nat :=
  let hits := (s.columns.enum.filter
    (fun p => p.2.matches_search search_qualifier search_name)).map Prod.fst
  if hits.isEmpty then .error .unknownColumn
  else if hits.length > 1 then .error .ambiguousColumn
  else .ok (hits.headD 0)

/-! ## The Distinct operator (src/operators.py, class Distinct) -/

/-- Key extraction `tuple([row[i] for i in self.column_indices])`; a Python
IndexError on an out-of-range index becomes an error. -/
def rowKey (idxs : List Nat) (row : List Int) : Except Unit (List Int) :=
  if idxs.all (fun i => decide (i < row.length)) then
    .ok (idxs.map (fun i => row.getD i 0))
  else .error ()

/-- Embeds one invocation of `Distinct.next` driven to exhaustion over the
child's rows: `seen` is the operator's `unique_keys` attribute on entry (set
in `__init__`, never reset inside `next`), and the final component is its
value when the iteration ends. -/
def distinctRun (idxs : List Nat) :
    List (List Int) → List (List Int) →
    Except Unit (List (List Int) × List (List Int))
  | [], seen => .ok ([], seen)
  | r :: rest, seen =>
      match rowKey idxs r with
      | .error e => .error e
      | .ok k =>
          if seen.contains k then distinctRun idxs rest seen
          else
            match distinctRun idxs rest (seen ++ [k]) with
            | .error e => .error e
            | .ok (out, s2) => .ok (r :: out, s2)

/-- The behavior the spec ascribes to one iteration of Distinct, written from
the spec's words: emit a row the first time its deduplication key is
observed. Used to compare the implementation against the spec sentence. -/
def specFirstOccur (idxs : List Nat) :
    List (List Int) → List (List Int) → List (List Int)
  | [], _ => []
  | r :: rest, seenKeys =>
      let k := idxs.map (fun i => r.getD i 0)
      if seenKeys.contains k then specFirstOccur idxs rest seenKeys
      else r :: specFirstOccur idxs rest (seenKeys ++ [k])

/-! ## The Aggregate operator (src/operators.py, classes AggregationState
through Aggregate) -/

/-- Row values: NULL, integers, strings, booleans (Python `True` is the
sentinel `Aggregate.next` feeds to `COUNT(*)`), and rationals standing in for
the floats `AvgState.finalize` produces. -/
inductive Val where
  | vnull
  | vint (n : Int)
  | vstr (s : String)
  | vbool (b : Bool)
  | vrat (q : ℚ)
deriving DecidableEq, Repr

/-- Python's numeric view of a value: booleans are integers. -/
def Val.asInt : Val → Option Int
  | .vint n => some n
  | .vbool b => some (if b then 1 else 0)
  | _ => none

/-- Python `x > y` on row values: numerics compare numerically, strings
lexicographically, anything else raises TypeError. -/
def vgt (x y : Val) : Except Unit Bool :=
  match x.asInt, y.asInt with
  | some a, some b => .ok (decide (b < a))
  | _, _ =>
      match x, y with
      | .vstr a, .vstr b => .ok (decide (b < a))
      | _, _ => .error ()

/-- Embeds the accumulator classes: SumState, CountState, MaxState, MinState,
AvgState (which composes a SumState and a CountState) and
CountDistinctState. -/
inductive AggState where
  | sumS (result : Int)
  | countS (result : Int)
  | maxS (result : Option Val)
  | minS (result : Option Val)
  | avgS (sum : Int) (cnt : Int)
  | countDistinctS (seen : List Val)
deriving DecidableEq, Repr

/-- Embeds `AGGREGATE_MAP[func]()`: initial state per function name, KeyError
for an unknown name. -/
def aggInit : String → Except Unit AggState
  | "SUM" => .ok (.sumS 0)
  | "COUNT" => .ok (.countS 0)
  | "COUNT DISTINCT" => .ok (.countDistinctS [])
  | "MAX" => .ok (.maxS none)
  | "MIN" => .ok (.minS none)
  | "AVG" => .ok (.avgS 0 0)
  | _ => .error ()

/-- Embeds the `update` methods: NULLs are skipped everywhere (COUNT counts
any non-NULL), SUM and AVG add numerically (TypeError otherwise), MAX/MIN
keep the strictly larger/smaller value, COUNT DISTINCT collects a set. -/
def aggUpdate (st : AggState) (v : Val) : Except Unit AggState :=
  if v = .vnull then .ok st
  else
    match st with
    | .sumS r =>
        match v.asInt with
        | some n => .ok (.sumS (r + n))
        | none => .error ()
    | .countS r => .ok (.countS (r + 1))
    | .maxS cur =>
        match cur with
        | none => .ok (.maxS (some v))
        | some m =>
            match vgt v m with
            | .ok true => .ok (.maxS (some v))
            | .ok false => .ok st
            | .error e => .error e
    | .minS cur =>
        match cur with
        | none => .ok (.minS (some v))
        | some m =>
            match vgt m v with
            | .ok true => .ok (.minS (some v))
            | .ok false => .ok st
            | .error e => .error e
    | .avgS s n =>
        match v.asInt with
        | some k => .ok (.avgS (s + k) (n + 1))
        | none => .error ()
    | .countDistinctS seen =>
        .ok (.countDistinctS (if seen.contains v then seen else seen ++ [v]))

/-- Embeds the `finalize` methods. -/
def aggFinalize : AggState → Val
  | .sumS r => .vint r
  | .countS r => .vint r
  | .maxS cur => cur.getD .vnull
  | .minS cur => cur.getD .vnull
  | .avgS s n => if n = 0 then .vnull else .vrat ((s : ℚ) / (n : ℚ))
  | .countDistinctS seen => .vint seen.length

/-- Embeds an entry of `aggregate_specs`: function name, argument column
index (`none` models the Python string `'*'`), DISTINCT flag. -/
structure AggSpec where
  func : String
  arg : Option Nat
  is_distinct : Bool
deriving DecidableEq, Repr

/-- The `AGGREGATE_MAP` key `Aggregate.next` builds: `func + ' DISTINCT'`
when the spec is distinct. -/
def aggKeyName (s : AggSpec) : String :=
  if s.is_distinct then s.func ++ " DISTINCT" else s.func

/-- State objects for a new group, one per spec, in order. -/
def initStates : List AggSpec → Except Unit (List AggState)
  | [] => .ok []
  | s :: rest =>
      match aggInit (aggKeyName s) with
      | .error e => .error e
      | .ok st => (initStates rest).map (fun l => st :: l)

/-- One row's update of a group's state objects (specs and states zipped by
position, as the source's indexed loop does): `'*'` feeds the sentinel
`True`, a column argument feeds `row[arg_index]` (IndexError when out of
range). -/
def updateStates : List AggSpec → List AggState → List Val →
    Except Unit (List AggState)
  | [], _, _ => .ok []
  | _ :: _, [], _ => .error ()
  | s :: srest, st :: strest, row =>
      let vE : Except Unit Val :=
        match s.arg with
        | none => .ok (.vbool true)
        | some i => if h : i < row.length then .ok (row.get ⟨i, h⟩) else .error ()
      match vE with
      | .error e => .error e
      | .ok v =>
          match aggUpdate st v with
          | .error e => .error e
          | .ok st2 => (updateStates srest strest row).map (fun l => st2 :: l)

/-- Group key `tuple(row[i] for i in self.group_key_indices)`. -/
def groupKey (gki : List Nat) (row : List Val) : Except Unit (List Val) :=
  if gki.all (fun i => decide (i < row.length)) then
    .ok (gki.map (fun i => row.getD i .vnull))
  else .error ()

/-- Embeds the accumulation loop of `Aggregate.next` over the child's rows:
`grouped_states` is a dict from group key to state objects, with groups
created on first sight. -/
def aggLoop (gki : List Nat) (specs : List AggSpec) :
    List (List Val) → List (List Val × List AggState) →
    Except Unit (List (List Val × List AggState))
  | [], groups => .ok groups
  | row :: rest, groups =>
      match groupKey gki row with
      | .error e => .error e
      | .ok k =>
          match dictGet groups k with
          | some sts =>
              match updateStates specs sts row with
              | .error e => .error e
              | .ok sts2 => aggLoop gki specs rest (dictInsert groups k sts2)
          | none =>
              match initStates specs with
              | .error e => .error e
              | .ok sts0 =>
                  match updateStates specs sts0 row with
                  | .error e => .error e
                  | .ok sts2 => aggLoop gki specs rest (dictInsert groups k sts2)

/-- Embeds `Aggregate.next` driven to exhaustion: accumulate, then emit one
row per group, group key values followed by finalized aggregates, in group
insertion order. -/
def Aggregate.next (gki : List Nat) (specs : List AggSpec)
    (rows : List (List Val)) : Except Unit (List (List Val)) :=
  (aggLoop gki specs rows []).map
    (fun groups => groups.map (fun g => g.1 ++ g.2.map aggFinalize))

/-! ## Buffer manager (src/buffermanager.py) -/

/-- A resident page as the buffer manager sees it: its id, whether it is a
ShadowPage (`isinstance(page, ShadowPage)`), its dirty flag and its payload. -/
structure PageB where
  page_id : Nat
  isShadow : Bool
  is_dirty : Bool
  data : List Nat
deriving DecidableEq, Repr

/-- Embeds the `BufferManager` pool: the OrderedDict in its recency order,
head least recently used, tail most recently used, keys unique. -/
structure BufferState where
  buffer : List PageB
  capacity : Nat
deriving DecidableEq, Repr

/-- Embeds `BufferManager.flush`: iterates the pool in order and writes every
page that is dirty or a ShadowPage; first component is the ordered list of
pages handed to `diskmanager.write_page`, second the pool afterwards (the
source touches neither the entries nor their order nor their flags). -/
def BufferManager.flush (b : BufferState) : List PageB × BufferState :=
  (b.buffer.filter (fun p => p.is_dirty || p.isShadow), b)

/-- Embeds `BufferManager.put`: `self.buffer[page.page_id] = page` followed
by `move_to_end` (net effect on an OrderedDict with unique keys: drop any
entry with that id, append at the most-recent end), then eviction of the
least recently used entry when over capacity, writing it through only if
dirty. First component: pages written to disk by this call. -/
def BufferManager.put (b : BufferState) (page : PageB) :
    List PageB × BufferState :=
  let buf1 := (b.buffer.filter (fun q => q.page_id != page.page_id)) ++ [page]
  if buf1.length > b.capacity then
    match buf1 with
    | [] => ([], { b with buffer := [] })
    | victim :: rest =>
        ((if victim.is_dirty then [victim] else []), { b with buffer := rest })
  else ([], { b with buffer := buf1 })

/-! ## Engine façade (src/engine.py) -/

/-- The one property of a raised Python exception `DatabaseEngine.execute`
inspects: `getattr(e, 'rollback', True)`, with the default for exceptions
that carry no such attribute already folded in. `ParserError` (src/errors.py)
and its subclasses carry `rollback = False`; `DBError` and exceptions outside
the hierarchy give `True`. -/
structure PyErr where
  rollback : Bool
deriving DecidableEq, Repr

/-- A `ParserError`, as raised by the transaction-modifier checks in
`execute`. -/
def parserErr : PyErr := { rollback := false }

/-- The shapes of parsed statement the `execute` dispatch distinguishes:
`BeginStatement`, `CommitStatement`, `RollbackStatement`, and everything
else, which is planned and run. -/
inductive Ast where
  | beginStmt
  | commitStmt
  | rollbackStmt
  | query
deriving DecidableEq, Repr

/-- Embeds `enums.TransactionStatus`. -/
inductive TxStatus where
  | statusOpen
  | statusClosed
deriving DecidableEq, Repr

/-- Embeds `QueryRequest` (src/request.py); the SQL text itself is abstracted
into the tokenize/parse outcome passed to `execute`. -/
structure Request where
  transaction_id : Int
  auto_commit : Bool
deriving DecidableEq, Repr

/-- Embeds the fields of `QueryResult` (src/result.py) the claims speak
about. -/
structure QueryResult where
  columns : List String
  rows : List (List Val)
  error : Option PyErr
  transaction_status : TxStatus
  transaction_id : Int
deriving DecidableEq, Repr

/-- Embeds the engine's mutable state: the shared catalog and the
transaction registry `self.transactions`. -/
structure EngineState where
  catalog : Catalog
  transactions : List (Int × Txn)
deriving DecidableEq, Repr

/-- Python `del d[k]` at the call sites in `execute`, where the key is always
present (the transaction was fetched from or just inserted into the
registry); absent keys are left alone rather than modelling an unreachable
KeyError. -/
def dictRemove [DecidableEq α] (l : List (α × β)) (k : α) : List (α × β) :=
  match dictDel l k with
  | .ok l2 => l2
  | .error _ => l

/-- Embeds `DatabaseEngine.get_new_transaction`: id
`max(keys) + 1` when the registry is non-empty, else 1. -/
def get_new_transaction (st : EngineState) : Txn × EngineState :=
  let new_id : Int :=
    match st.transactions with
    | [] => 1
    | e :: rest => (rest.map Prod.fst).foldl max e.1 + 1
  let t := Txn.new new_id
  (t, { st with transactions := dictInsert st.transactions new_id t })

/-- Embeds `DatabaseEngine.get_annonimous_transaction` (id -1). -/
def get_annonimous_transaction (st : EngineState) : Txn × EngineState :=
  let t := Txn.new (-1)
  (t, { st with transactions := dictInsert st.transactions (-1) t })

/-- Embeds lines 63-68 of `execute`: an existing transaction by id (raising a
plain `Exception`, rollback attribute absent hence `True`, when the id is
unknown — at which point the local `transaction` is still `None`), else the
anonymous transaction under auto-commit, else a fresh one. -/
def resolveTxn (st : EngineState) (req : Request) :
    Except PyErr (Txn × EngineState) :=
  if req.transaction_id ≠ -1 then
    match dictGet st.transactions req.transaction_id with
    | some t => .ok (t, st)
    | none => .error { rollback := true }
  else if req.auto_commit then .ok (get_annonimous_transaction st)
  else .ok (get_new_transaction st)

/-- The `QueryResult` the success returns of `execute` build for BEGIN,
COMMIT and ROLLBACK. -/
def successResult (tid : Int) (status : TxStatus) : QueryResult :=
  { columns := ["status"], rows := [[.vstr "Success"]], error := none,
    transaction_status := status, transaction_id := tid }

/-- The `QueryResult` the `except` handler of `execute` builds: status
columns, a sentinel row, the error recorded. -/
def errorResult (e : PyErr) (tid : Int) (status : TxStatus) : QueryResult :=
  { columns := ["status"], rows := [[.vstr "Error"]], error := some e,
    transaction_status := status, transaction_id := tid }

/-- Embeds `DatabaseEngine.execute` (src/engine.py lines 38-131).

The two phases the claims abstract are passed as outcomes: `parseOutcome`
stands for lines 46-51 (appending the semicolon, tokenizing and parsing —
including the IndexError an empty SQL string raises, all before the local
`transaction` is assigned), and `planOutcome` for lines 79-85 (planning the
query and pulling every row). All control flow around them — the
transaction-modifier validations, transaction selection, COMMIT/ROLLBACK
dispatch, auto-commit of the anonymous transaction, and the `except` handler
with its `if transaction and getattr(e, 'rollback', True)` test — is
translated from the source.

Returns the result, the engine state afterwards, and an instrumentation flag
recording whether `transaction.rollback()` was invoked during the call. -/
def DatabaseEngine.execute (st : EngineState) (req : Request)
    (parseOutcome : Except PyErr Ast)
    (planOutcome : Except PyErr (List (List Val) × List String)) :
    QueryResult × EngineState × Bool :=
  match parseOutcome with
  | .error e => (errorResult e req.transaction_id .statusOpen, st, false)
  | .ok ast =>
    if ast = .beginStmt ∧ req.transaction_id ≠ -1 then
      (errorResult parserErr req.transaction_id .statusOpen, st, false)
    else if (ast = .commitStmt ∨ ast = .rollbackStmt) ∧ req.transaction_id = -1 then
      (errorResult parserErr req.transaction_id .statusOpen, st, false)
    else if ast = .beginStmt then
      let ts := get_new_transaction st
      (successResult ts.1.id .statusOpen, ts.2, false)
    else
      match resolveTxn st req with
      | .error e => (errorResult e req.transaction_id .statusOpen, st, false)
      | .ok (tx, st1) =>
        if ast = .commitStmt then
          match tx.commit st1.catalog with
          | (.ok _, _, cat2) =>
              (successResult tx.id .statusClosed,
               { catalog := cat2,
                 transactions := dictRemove st1.transactions tx.id }, false)
          | (.error _, tx2, cat2) =>
              let rb := tx2.rollback cat2
              (errorResult { rollback := true } tx.id .statusClosed,
               { catalog := rb.2,
                 transactions := dictInsert st1.transactions tx.id rb.1 }, true)
        else if ast = .rollbackStmt then
          let rb := tx.rollback st1.catalog
          (successResult tx.id .statusClosed,
           { catalog := rb.2,
             transactions := dictRemove st1.transactions tx.id }, true)
        else
          match planOutcome with
          | .error e =>
              if e.rollback then
                let rb := tx.rollback st1.catalog
                (errorResult e tx.id .statusClosed,
                 { catalog := rb.2,
                   transactions := dictInsert st1.transactions tx.id rb.1 }, true)
              else
                (errorResult e tx.id .statusOpen, st1, false)
          | .ok (rows, cols) =>
              if req.auto_commit ∧ tx.id = -1 then
                match tx.commit st1.catalog with
                | (.ok _, _, cat2) =>
                    ({ columns := cols, rows := rows, error := none,
                       transaction_status := .statusClosed,
                       transaction_id := tx.id },
                     { catalog := cat2,
                       transactions := dictRemove st1.transactions tx.id }, false)
                | (.error _, tx2, cat2) =>
                    let rb := tx2.rollback cat2
                    (errorResult { rollback := true } tx.id .statusClosed,
                     { catalog := rb.2,
                       transactions := dictInsert st1.transactions tx.id rb.1 }, true)
              else
                ({ columns := cols, rows := rows, error := none,
                   transaction_status := .statusOpen,
                   transaction_id := tx.id }, st1, false)

/-! ## Helper lemmas about the dictionary model -/

theorem dictGet_mem [DecidableEq α] {l : List (α × β)} {k : α} {v : β}
    (h : dictGet l k = some v) : (k, v) ∈ l := by
  induction l with
  | nil => simp [dictGet] at h
  | cons e rest ih =>
      obtain ⟨k0, v0⟩ := e
      by_cases hk : k0 = k
      · subst hk
        simp [dictGet] at h
        simp [h]
      · simp [dictGet, hk] at h
        exact List.mem_cons_of_mem _ (ih h)

theorem mem_dictInsert [DecidableEq α] {l : List (α × β)} {k : α} {v : β}
    {p : α × β} (h : p ∈ dictInsert l k v) : p = (k, v) ∨ p ∈ l := by
  induction l with
  | nil => simpa [dictInsert] using h
  | cons e rest ih =>
      obtain ⟨k0, v0⟩ := e
      by_cases hk : k0 = k
      · subst hk
        simp [dictInsert] at h
        rcases h with h | h
        · exact Or.inl h
        · exact Or.inr (List.mem_cons_of_mem _ h)
      · simp [dictInsert, hk] at h
        rcases h with h | h
        · exact Or.inr (by simp [h])
        · rcases ih h with h2 | h2
          · exact Or.inl h2
          · exact Or.inr (List.mem_cons_of_mem _ h2)

theorem keys_dictInsert_subset [DecidableEq α] {l : List (α × β)} {k q : α}
    {v : β} (h : q ∈ (dictInsert l k v).map Prod.fst) :
    q = k ∨ q ∈ l.map Prod.fst := by
  simp only [List.mem_map] at h
  obtain ⟨p, hp, hq⟩ := h
  rcases mem_dictInsert hp with h2 | h2
  · left; rw [← hq, h2]
  · right; exact List.mem_map.mpr ⟨p, h2, hq⟩

theorem nodup_keys_dictInsert [DecidableEq α] {l : List (α × β)} {k : α}
    {v : β} (h : (l.map Prod.fst).Nodup) :
    ((dictInsert l k v).map Prod.fst).Nodup := by
  induction l with
  | nil => simp [dictInsert]
  | cons e rest ih =>
      obtain ⟨k0, v0⟩ := e
      simp only [List.map_cons, List.nodup_cons] at h
      by_cases hk : k0 = k
      · subst hk
        simpa [dictInsert, List.nodup_cons] using h
      · simp only [dictInsert, hk, if_false, List.map_cons, List.nodup_cons]
        refine ⟨fun hc => ?_, ih h.2⟩
        rcases keys_dictInsert_subset hc with h2 | h2
        · exact hk h2
        · exact h.1 h2

theorem dictDel_sublist [DecidableEq α] {l l2 : List (α × β)} {k : α}
    (h : dictDel l k = .ok l2) : l2.Sublist l := by
  induction l generalizing l2 with
  | nil => simp [dictDel] at h
  | cons e rest ih =>
      obtain ⟨k0, v0⟩ := e
      by_cases hk : k0 = k
      · subst hk
        simp [dictDel] at h
        subst h
        exact List.sublist_cons_self _ _
      · simp only [dictDel, hk, if_false] at h
        cases hd : dictDel rest k with
        | error e0 => rw [hd] at h; simp [Except.map] at h
        | ok l3 =>
            rw [hd] at h
            simp [Except.map] at h
            subst h
            exact (ih hd).cons₂ _

theorem dictDel_key_ne [DecidableEq α] {l l2 : List (α × β)} {k : α}
    (hnd : (l.map Prod.fst).Nodup) (h : dictDel l k = .ok l2)
    {p : α × β} (hp : p ∈ l2) : p.1 ≠ k := by
  induction l generalizing l2 with
  | nil => simp [dictDel] at h
  | cons e rest ih =>
      obtain ⟨k0, v0⟩ := e
      simp only [List.map_cons, List.nodup_cons] at hnd
      by_cases hk : k0 = k
      · subst hk
        simp [dictDel] at h
        subst h
        intro hq
        exact hnd.1 (hq ▸ List.mem_map.mpr ⟨p, hp, rfl⟩)
      · simp only [dictDel, hk, if_false] at h
        cases hd : dictDel rest k with
        | error e0 => rw [hd] at h; simp [Except.map] at h
        | ok l3 =>
            rw [hd] at h
            simp [Except.map] at h
            subst h
            rcases List.mem_cons.mp hp with h2 | h2
            · subst h2; exact hk
            · exact ih hnd.2 hd h2

theorem dictDel_ok_of_mem [DecidableEq α] {l : List (α × β)} {k : α} {v : β}
    (h : (k, v) ∈ l) : ∃ l2, dictDel l k = .ok l2 := by
  induction l with
  | nil => simp at h
  | cons e rest ih =>
      obtain ⟨k0, v0⟩ := e
      by_cases hk : k0 = k
      · subst hk
        exact ⟨rest, by simp [dictDel]⟩
      · rcases List.mem_cons.mp h with h2 | h2
        · cases h2; simp at hk
        · obtain ⟨l3, hl3⟩ := ih h2
          exact ⟨(k0, v0) :: l3, by simp [dictDel, hk, hl3, Except.map]⟩

theorem dictGet_dictInsert_ne [DecidableEq α] {l : List (α × β)} {k q : α}
    {v : β} (h : q ≠ k) : dictGet (dictInsert l k v) q = dictGet l q := by
  have hkq : ¬ (k = q) := fun hq => h hq.symm
  induction l with
  | nil => simp [dictInsert, dictGet, hkq]
  | cons e rest ih =>
      obtain ⟨k0, v0⟩ := e
      by_cases hk : k0 = k
      · simp [dictInsert, dictGet, hk, hkq]
      · by_cases hq : k0 = q
        · simp [dictInsert, hk, dictGet, hq, h]
        · simp [dictInsert, hk, dictGet, hq, ih]

/-! ## Claim C1 -/

/-- C1: the claim says `Catalog.get_free_page_id(t)` returns an id and
records it in `borrowed_page_ids` under the key `t`. In the code the guard at
src/catalog.py line 117 stores the empty list under the module object
`transaction` (key `none` in this embedding) instead of under the parameter,
so whenever `t` is not already a key of `borrowed_page_ids` — which is every
reachable state, since nothing ever inserts an integer key — line 118 raises
KeyError instead of returning. The free list head (or the `max_page_id`
bump) is consumed before the raise. -/
theorem C1_get_free_page_id_raises (c : Catalog) (tid : Nat)
    (h : dictGet c.borrowed_page_ids (some tid) = none) :
    (c.get_free_page_id tid).1 = .error () := by
  have hne : (some tid : Option Nat) ≠ none := by simp
  cases hf : c.free_page_ids with
  | nil =>
      simp [Catalog.get_free_page_id, hf, dictContains, h,
            dictGet_dictInsert_ne hne]
  | cons p rest =>
      simp [Catalog.get_free_page_id, hf, dictContains, h,
            dictGet_dictInsert_ne hne]

/-- C1, witness: a catalog fresh from `__init__` has an empty
`borrowed_page_ids`, and the very first allocation call raises. -/
theorem C1_get_free_page_id_raises_witness :
    dictGet (Catalog.borrowed_page_ids ⟨[], [], 0, []⟩) (some 1) = none ∧
    ((⟨[], [], 0, []⟩ : Catalog).get_free_page_id 1).1 = .error () :=
  ⟨rfl, C1_get_free_page_id_raises ⟨[], [], 0, []⟩ 1 rfl⟩

/-! ## Claim C2 -/

/-- C2: the claim says that after `T.drop_table_by_name(n)` every later
`T.get_table_by_name(n)` fails even when `n` still exists in the committed
catalog, the tombstone overriding the catalog copy. Evaluating the code on a
catalog that holds table `t` (pages `[1]`): the drop stores the tombstone,
yet the subsequent lookup succeeds and returns the committed `Table` object —
`if table:` at src/transaction.py line 31 treats the `None` tombstone like an
absent entry and falls through to the catalog. -/
theorem C2_lookup_after_drop_returns_catalog_copy :
    Txn.drop_table_by_name (Txn.new 1)
        ⟨[("t", ⟨"t", ["id"], ["int"], [1]⟩)], [], 1, []⟩ "t"
      = .ok ⟨1, [("t", none)], [], [1], false⟩
  ∧ Txn.get_table_by_name ⟨1, [("t", none)], [], [1], false⟩
        ⟨[("t", ⟨"t", ["id"], ["int"], [1]⟩)], [], 1, []⟩ "t"
      = .ok (.inl ⟨"t", ["id"], ["int"], [1]⟩) := by
  constructor
  · rfl
  · rfl

/-! ## Claim C3 -/

/-- C3: the claim says that after a first `commit()` every later `commit()`
or `rollback()` is a no-op on the catalog. Evaluating the code on a
transaction that obtained page id 5 and committed: the commit leaves the
catalog's free list empty, but the subsequent `rollback()` — which never
consults `_has_terminated` (src/transaction.py lines 152-158) — appends 5 to
`free_page_ids`, so rollback after commit is not a no-op. -/
theorem C3_rollback_after_commit_mutates_catalog :
    Txn.commit ⟨1, [], [5], [], false⟩ ⟨[], [], 9, []⟩
      = (.ok (), ⟨1, [], [5], [], true⟩, ⟨[], [], 9, []⟩)
  ∧ Txn.rollback ⟨1, [], [5], [], true⟩ ⟨[], [], 9, []⟩
      = (⟨1, [], [5], [], true⟩, ⟨[], [5], 9, []⟩)
  ∧ Catalog.free_page_ids ⟨[], [5], 9, []⟩ ≠ Catalog.free_page_ids ⟨[], [], 9, []⟩ := by
  refine ⟨rfl, rfl, by simp⟩

/-! ## Preservation of the free-list invariant (claim C4) -/

theorem goodCat_add (c : Catalog) (t : TableM) (hg : GoodCat c)
    (hs : AddSafe c t) : GoodCat (c.add_new_table t).2 := by
  obtain ⟨hfree, hnames, hnd, hsep⟩ := hg
  obtain ⟨hlow, hpages⟩ := hs
  cases hc : dictContains c.tables (lowerStr t.table_name) with
  | true => simpa [Catalog.add_new_table, hc] using ⟨hfree, hnames, hnd, hsep⟩
  | false =>
      rw [hlow] at hc
      simp only [Catalog.add_new_table, hlow, hc, Bool.false_eq_true, if_false]
      refine ⟨?_, ?_, ?_, ?_⟩
      · intro p hp e he
        rcases mem_dictInsert he with h | h
        · subst h
          intro hmem
          exact (hpages p hmem).1 hp
        · exact hfree p hp e h
      · intro e he
        rcases mem_dictInsert he with h | h
        · subst h; exact ⟨rfl, hlow⟩
        · exact hnames e h
      · exact nodup_keys_dictInsert hnd
      · intro e1 he1 e2 he2 hne p hp
        rcases mem_dictInsert he1 with h1 | h1 <;>
          rcases mem_dictInsert he2 with h2 | h2
        · subst h1; subst h2; exact absurd rfl hne
        · subst h1
          exact (hpages p hp).2 e2 h2
        · subst h2
          intro hmem
          exact (hpages p hmem).2 e1 h1 hp
        · exact hsep e1 h1 e2 h2 hne p hp

theorem goodCat_cor (c : Catalog) (t : TableM) (hg : GoodCat c)
    (hs : CorSafe c t) : GoodCat (c.create_or_replace_table t) := by
  obtain ⟨hfree, hnames, hnd, hsep⟩ := hg
  obtain ⟨hlow, hpages⟩ := hs
  simp only [Catalog.create_or_replace_table]
  refine ⟨?_, ?_, ?_, ?_⟩
  · intro p hp e he
    rcases mem_dictInsert he with h | h
    · subst h
      intro hmem
      exact (hpages p hmem).1 hp
    · exact hfree p hp e h
  · intro e he
    rcases mem_dictInsert he with h | h
    · subst h; exact ⟨rfl, hlow⟩
    · exact hnames e h
  · exact nodup_keys_dictInsert hnd
  · intro e1 he1 e2 he2 hne p hp
    rcases mem_dictInsert he1 with h1 | h1 <;>
      rcases mem_dictInsert he2 with h2 | h2
    · subst h1; subst h2; exact absurd rfl hne
    · subst h1
      exact (hpages p hp).2 e2 h2 (fun hk => hne hk.symm)
    · subst h2
      intro hmem
      exact (hpages p hmem).2 e1 h1 (fun hk => hne hk) hp
    · exact hsep e1 h1 e2 h2 hne p hp

theorem goodCat_drop (c : Catalog) (name : String) (hg : GoodCat c) :
    GoodCat (c.drop_table_by_name name).2 := by
  obtain ⟨hfree, hnames, hnd, hsep⟩ := hg
  cases hget : c.get_table_by_name name with
  | error e =>
      simpa [Catalog.drop_table_by_name, hget] using ⟨hfree, hnames, hnd, hsep⟩
  | ok t =>
      have hmem : (lowerStr name, t) ∈ c.tables := by
        unfold Catalog.get_table_by_name at hget
        cases hd : dictGet c.tables (lowerStr name) with
        | none => rw [hd] at hget; simp at hget
        | some t0 =>
            rw [hd] at hget
            simp at hget
            subst hget
            exact dictGet_mem hd
      have hkey : lowerStr name = t.table_name := (hnames _ hmem).1
      have hmem2 : (t.table_name, t) ∈ c.tables := hkey ▸ hmem
      obtain ⟨l2, hl2⟩ := dictDel_ok_of_mem hmem2
      simp only [Catalog.drop_table_by_name, hget, hl2]
      refine ⟨?_, ?_, ?_, ?_⟩
      · intro p hp e he
        have heOld : e ∈ c.tables := (dictDel_sublist hl2).mem he
        rcases List.mem_append.mp hp with h | h
        · exact hfree p h e heOld
        · exact hsep (t.table_name, t) hmem2 e heOld
            (fun hk => (dictDel_key_ne hnd hl2 he) hk.symm) p h
      · intro e he
        exact hnames e ((dictDel_sublist hl2).mem he)
      · exact hnd.sublist ((dictDel_sublist hl2).map Prod.fst)
      · intro e1 he1 e2 he2 hne p hp
        exact hsep e1 ((dictDel_sublist hl2).mem he1)
          e2 ((dictDel_sublist hl2).mem he2) hne p hp

theorem getfree_tables (c : Catalog) (tid : Nat) :
    (c.get_free_page_id tid).2.tables = c.tables := by
  unfold Catalog.get_free_page_id
  cases hf : c.free_page_ids <;> dsimp only <;> split <;> dsimp only <;>
    split <;> rfl

theorem getfree_free_subset (c : Catalog) (tid : Nat) :
    ∀ p ∈ (c.get_free_page_id tid).2.free_page_ids, p ∈ c.free_page_ids := by
  unfold Catalog.get_free_page_id
  cases hf : c.free_page_ids <;> dsimp only <;> split <;> dsimp only <;>
    split <;> simp_all

theorem goodCat_getfree (c : Catalog) (tid : Nat) (hg : GoodCat c) :
    GoodCat (c.get_free_page_id tid).2 := by
  obtain ⟨hfree, hnames, hnd, hsep⟩ := hg
  have ht := getfree_tables c tid
  have hf := getfree_free_subset c tid
  refine ⟨?_, ?_, ?_, ?_⟩
  · intro p hp e he
    exact hfree p (hf p hp) e (ht ▸ he)
  · intro e he; exact hnames e (ht ▸ he)
  · show ((c.get_free_page_id tid).2.tables.map Prod.fst).Nodup
    rw [ht]
    exact hnd
  · intro e1 he1 e2 he2 hne p hp
    exact hsep e1 (ht ▸ he1) e2 (ht ▸ he2) hne p hp

theorem goodCat_return (c : Catalog) (ids : List Nat) (hg : GoodCat c)
    (hs : NotLive c ids) : GoodCat (c.return_page_ids ids) := by
  obtain ⟨hfree, hnames, hnd, hsep⟩ := hg
  refine ⟨?_, hnames, hnd, hsep⟩
  intro p hp e he
  rcases List.mem_append.mp hp with h | h
  · exact hfree p h e he
  · exact hs p h e he

theorem drop_ok_of_contains (c : Catalog) (name : String) (hg : GoodCat c)
    (hcon : dictContains c.tables name = true) :
    ∃ c1, c.drop_table_by_name name = (.ok (), c1) := by
  obtain ⟨hfree, hnames, hnd, hsep⟩ := hg
  obtain ⟨t, ht⟩ : ∃ t, dictGet c.tables name = some t := by
    cases hd : dictGet c.tables name with
    | none => rw [dictContains, hd] at hcon; simp at hcon
    | some t => exact ⟨t, rfl⟩
  have hmem := dictGet_mem ht
  have hkey : name = t.table_name := (hnames _ hmem).1
  have hlowkey : lowerStr t.table_name = t.table_name := (hnames _ hmem).2
  have hlook : dictGet c.tables (lowerStr name) = some t := by
    rw [hkey, hlowkey, ← hkey]; exact ht
  obtain ⟨l2, hl2⟩ := dictDel_ok_of_mem (show (t.table_name, t) ∈ c.tables from hkey ▸ hmem)
  refine ⟨{ c with tables := l2, free_page_ids := c.free_page_ids ++ t.page_id }, ?_⟩
  simp [Catalog.drop_table_by_name, Catalog.get_table_by_name, hlook, hl2]

theorem goodCat_commitTables (sh : List (String × Option ShadowTable)) :
    ∀ (c : Catalog) (freed : List Nat), GoodCat c → CommitSafe c sh freed →
      (commitTables c sh).1 = .ok () ∧ GoodCat (commitTables c sh).2 ∧
        NotLive (commitTables c sh).2 freed := by
  induction sh with
  | nil => intro c freed hg hs; exact ⟨rfl, hg, hs⟩
  | cons e rest ih =>
      intro c freed hg hs
      obtain ⟨name, stOpt⟩ := e
      cases stOpt with
      | none =>
          cases hcon : dictContains c.tables name with
          | true =>
              obtain ⟨c1, hc1⟩ := drop_ok_of_contains c name hg hcon
              have hg1 : GoodCat c1 := by
                have hd := goodCat_drop c name hg
                rw [hc1] at hd
                exact hd
              have hs1 : CommitSafe c1 rest freed := by
                have hs2 : CommitSafe
                    (if dictContains c.tables name then
                      (c.drop_table_by_name name).2 else c) rest freed := hs
                rw [hcon] at hs2
                simp only [if_true] at hs2
                rw [hc1] at hs2
                exact hs2
              simpa [commitTables, hcon, hc1] using ih c1 freed hg1 hs1
          | false =>
              have hs1 : CommitSafe c rest freed := by
                have hs2 : CommitSafe
                    (if dictContains c.tables name then
                      (c.drop_table_by_name name).2 else c) rest freed := hs
                rw [hcon] at hs2
                simpa using hs2
              simpa [commitTables, hcon] using ih c freed hg hs1
      | some st =>
          obtain ⟨hcor, hrest⟩ := hs
          have hg1 := goodCat_cor c (from_shadow_table st) hg hcor
          simpa [commitTables] using ih _ freed hg1 hrest

theorem goodCat_applyOp (c : Catalog) (op : CatOp) (hg : GoodCat c)
    (hs : OpSafe c op) : GoodCat (applyOp c op) := by
  cases op with
  | addNewTable t => exact goodCat_add c t hg hs
  | dropTable n => exact goodCat_drop c n hg
  | createOrReplace t => exact goodCat_cor c t hg hs
  | getFreePageId tid => exact goodCat_getfree c tid hg
  | returnPageIds ids => exact goodCat_return c ids hg hs
  | txnCommit sh freed =>
      obtain ⟨hok, hg1, hnl⟩ := goodCat_commitTables sh c freed hg hs
      cases hct : commitTables c sh with
      | mk r c1 =>
          rw [hct] at hok hg1 hnl
          subst hok
          simpa [applyOp, hct] using goodCat_return c1 freed hg1 hnl
  | txnRollback ob => exact goodCat_return c ob hg hs

/-! ## Claim C4 -/

/-- C4, counterexample: the claim asserts the free list stays disjoint from
the live tables' page ids after every sequence of the listed operations. It
fails already one operation away from an initial catalog: starting from
`Catalog([Table("t", ..., page_id=[1])])`, the listed operation
`return_page_ids([1])` — which appends unconditionally — puts the live page 1
on the free list. -/
theorem C4_counterexample :
    Catalog.init [⟨"t", ["id"], ["int"], [1]⟩]
      = .ok ⟨[("t", ⟨"t", ["id"], ["int"], [1]⟩)], [], 1, []⟩
  ∧ FreeDisj ⟨[("t", ⟨"t", ["id"], ["int"], [1]⟩)], [], 1, []⟩
  ∧ ¬ FreeDisj (applyOp ⟨[("t", ⟨"t", ["id"], ["int"], [1]⟩)], [], 1, []⟩
        (.returnPageIds [1])) :=
  ⟨rfl, by decide, by decide⟩

/-- C4, amended: the disjointness of the free list from all live page ids is
preserved by every sequence of the listed catalog operations — including
`Transaction.commit` and `Transaction.rollback`, whose catalog effects the
`txnCommit`/`txnRollback` operations replay — provided each operation's
arguments respect it: `return_page_ids` (and hence rollback's return of
`obtained_page_ids`) receives no live page id, `add_new_table` and
`create_or_replace_table` (and hence each shadow table realized by commit)
receive lowercase-named tables whose pages are neither free nor owned by
another live table, and tables are keyed consistently by their own lowercase
names with pairwise-disjoint page lists (`GoodCat`).
`drop_table_by_name` and `get_free_page_id` need no argument condition. -/
theorem C4_amended_free_list_invariant (c : Catalog) (ops : List CatOp)
    (hg : GoodCat c) (hs : SafeSeq c ops) :
    GoodCat (applySeq c ops) ∧ FreeDisj (applySeq c ops) := by
  have main : ∀ (l : List CatOp) (c0 : Catalog), GoodCat c0 → SafeSeq c0 l →
      GoodCat (applySeq c0 l) := by
    intro l
    induction l with
    | nil => intro c0 hg0 _; exact hg0
    | cons op rest ih =>
        intro c0 hg0 hs0
        have hs1 : OpSafe c0 op ∧ SafeSeq (applyOp c0 op) rest := hs0
        exact ih _ (goodCat_applyOp c0 op hg0 hs1.1) hs1.2
  have h := main ops c hg hs
  exact ⟨h, h.1⟩

/-- C4, witness: a concrete trajectory exercising every operation —
allocation (which raises but still consumes an id), a drop, safe returns, a
rollback, a table creation, and a commit that drops one table and realizes a
shadow table — keeps the invariant. -/
theorem C4_amended_free_list_invariant_witness :
    GoodCat (applySeq ⟨[("t", ⟨"t", ["id"], ["int"], [1]⟩)], [], 1, []⟩
        [.getFreePageId 5, .dropTable "t", .returnPageIds [7], .txnRollback [],
         .addNewTable ⟨"u", ["id"], ["int"], [9]⟩,
         .txnCommit [("u", none), ("v", some ⟨"v", ["id"], ["int"], [3]⟩)] [9]])
  ∧ FreeDisj (applySeq ⟨[("t", ⟨"t", ["id"], ["int"], [1]⟩)], [], 1, []⟩
        [.getFreePageId 5, .dropTable "t", .returnPageIds [7], .txnRollback [],
         .addNewTable ⟨"u", ["id"], ["int"], [9]⟩,
         .txnCommit [("u", none), ("v", some ⟨"v", ["id"], ["int"], [3]⟩)] [9]]) :=
  C4_amended_free_list_invariant _ _ (by decide) (by decide)

/-! ## Claim C5 -/

theorem be32_length (n : Nat) : (be32 n).length = 4 := rfl

theorem beDecode32_be32 (n : Nat) (l : List Nat) (h : n < 2 ^ 32) :
    beDecode32 (be32 n ++ l) = n := by
  show ((n / 2^24 % 256 * 256 + n / 2^16 % 256) * 256 + n / 2^8 % 256) * 256
        + n % 256 = n
  omega

/-- C5: for any pickler/unpickler pair that round-trips the page's rows (with
a non-empty byte output, as `pickle.dumps` always produces), a page whose
serialized payload fits in `PAGE_SIZE - HEADER_SIZE` is encoded by
`Page.to_bytes` into exactly `PAGE_SIZE` bytes, and
`Page.from_bytes(page.page_id, page.to_bytes())` reproduces the page id and
the row data; a payload over the ceiling makes `to_bytes` raise the
page-overflow error instead. -/
theorem C5_page_codec_roundtrip {α : Type} (dumps : List α → List Nat)
    (loads : List Nat → List α) (p : PageS α)
    (hrt : loads (dumps p.data) = p.data)
    (hpos : 0 < (dumps p.data).length) :
    ((dumps p.data).length ≤ PAGE_SIZE - HEADER_SIZE →
      ∃ bytes, Page.to_bytes dumps p = .ok bytes ∧ bytes.length = PAGE_SIZE ∧
        Page.from_bytes loads p.page_id bytes
          = .ok { page_id := p.page_id, data := p.data, is_dirty := false })
  ∧ ((dumps p.data).length > PAGE_SIZE - HEADER_SIZE →
      Page.to_bytes dumps p = .error ()) := by
  constructor
  · intro hle
    have hps : PAGE_SIZE = 4096 := rfl
    have hhs : HEADER_SIZE = 8 := rfl
    have hle4 : (dumps p.data).length ≤ 4088 := by
      rw [hps, hhs] at hle; omega
    have hnot : ¬ ((dumps p.data).length > PAGE_SIZE - HEADER_SIZE) := by
      rw [hps, hhs]; omega
    have hlenHdr : (be32 p.page_id ++ be32 (dumps p.data).length
        ++ dumps p.data).length = 8 + (dumps p.data).length := by
      rw [List.append_assoc, List.length_append, List.length_append,
          be32_length, be32_length]
      omega
    refine ⟨(be32 p.page_id ++ be32 (dumps p.data).length ++ dumps p.data) ++
        List.replicate (PAGE_SIZE -
          (be32 p.page_id ++ be32 (dumps p.data).length ++ dumps p.data).length) 0,
      ?_, ?_, ?_⟩
    · simp [Page.to_bytes, hnot]
    · rw [List.length_append, hlenHdr, List.length_replicate, hps]
      omega
    · have hlen8 : ((be32 p.page_id ++ be32 (dumps p.data).length
          ++ dumps p.data) ++ List.replicate (PAGE_SIZE -
          (be32 p.page_id ++ be32 (dumps p.data).length ++ dumps p.data).length)
          0).length = PAGE_SIZE := by
        rw [List.length_append, hlenHdr, List.length_replicate, hps]
        omega
      have hform : (be32 p.page_id ++ be32 (dumps p.data).length
            ++ dumps p.data) ++ List.replicate (PAGE_SIZE -
            (be32 p.page_id ++ be32 (dumps p.data).length ++ dumps p.data).length)
            0
          = be32 p.page_id ++ (be32 (dumps p.data).length ++ (dumps p.data ++
            List.replicate (PAGE_SIZE -
            (be32 p.page_id ++ be32 (dumps p.data).length ++ dumps p.data).length)
            0)) := by
        simp [List.append_assoc]
      have hdl32 : (dumps p.data).length < 2 ^ 32 := by omega
      have hdec : beDecode32 (((be32 p.page_id ++ be32 (dumps p.data).length
            ++ dumps p.data) ++ List.replicate (PAGE_SIZE -
            (be32 p.page_id ++ be32 (dumps p.data).length ++ dumps p.data).length)
            0).drop 4) = (dumps p.data).length := by
        rw [hform]
        rw [show (4 : Nat) = (be32 p.page_id).length from rfl, List.drop_left]
        exact beDecode32_be32 _ _ hdl32
      have hdrop8 : ((be32 p.page_id ++ be32 (dumps p.data).length
            ++ dumps p.data) ++ List.replicate (PAGE_SIZE -
            (be32 p.page_id ++ be32 (dumps p.data).length ++ dumps p.data).length)
            0).drop HEADER_SIZE
          = dumps p.data ++ List.replicate (PAGE_SIZE -
            (be32 p.page_id ++ be32 (dumps p.data).length ++ dumps p.data).length)
            0 := by
        rw [hform, ← List.append_assoc]
        rw [show HEADER_SIZE = (be32 p.page_id ++ be32 (dumps p.data).length).length
              from rfl, List.drop_left]
      have hnotshort : ¬ (((be32 p.page_id ++ be32 (dumps p.data).length
          ++ dumps p.data) ++ List.replicate (PAGE_SIZE -
          (be32 p.page_id ++ be32 (dumps p.data).length ++ dumps p.data).length)
          0).length < HEADER_SIZE) := by
        rw [hlen8, hps, hhs]
        omega
      have hne0 : ¬ ((dumps p.data).length = 0) := by omega
      simp only [Page.from_bytes, hnotshort, if_false, hdec, hne0, hdrop8]
      rw [List.take_left, hrt]
  · intro hgt
    simp [Page.to_bytes, hgt]

/-- C5, witness: a two-row page under a concrete round-tripping serializer
pair encodes to 4096 bytes and decodes back to its id and rows. -/
theorem C5_page_codec_roundtrip_witness :
    ∃ bytes,
      Page.to_bytes (fun l => [l.length])
          ({ page_id := 3, data := [true, true], is_dirty := true } : PageS Bool)
        = .ok bytes
    ∧ bytes.length = PAGE_SIZE
    ∧ Page.from_bytes (fun b => List.replicate (b.headD 0) true) 3 bytes
        = .ok { page_id := 3, data := [true, true], is_dirty := false } :=
  (C5_page_codec_roundtrip (fun l => [l.length])
      (fun b => List.replicate (b.headD 0) true)
      { page_id := 3, data := [true, true], is_dirty := true }
      (by decide) (by decide)).1 (by decide)

/-! ## Claim C6 -/

theorem two_le_length_of_mem_ne {l : List α} {a b : α}
    (ha : a ∈ l) (hb : b ∈ l) (hne : a ≠ b) : 2 ≤ l.length := by
  induction l with
  | nil => simp at ha
  | cons x rest ih =>
      rcases List.mem_cons.mp ha with h1 | h1
      · rcases List.mem_cons.mp hb with h2 | h2
        · subst h1; subst h2; exact absurd rfl hne
        · subst h1
          have hpos : 0 < rest.length := List.length_pos.mpr (List.ne_nil_of_mem h2)
          simp only [List.length_cons]
          omega
      · have hpos : 0 < rest.length := List.length_pos.mpr (List.ne_nil_of_mem h1)
        simp only [List.length_cons]
        omega

/-- C6, counterexample: the claim says an exact alias match is preferred over
a name match, so with column 0 aliased `y` and column 1 named `y`,
`resolve(None, "y")` should return index 0. The code collects both columns
into `matches` — `matches_search` gives no precedence — and raises the
ambiguous-column error instead. -/
theorem C6_counterexample :
    Schema.resolve ⟨[⟨"x", none, some "y", false⟩, ⟨"y", none, none, false⟩]⟩
        none "y" = .error .ambiguousColumn
  ∧ Schema.resolve ⟨[⟨"x", none, some "y", false⟩, ⟨"y", none, none, false⟩]⟩
        none "y" ≠ .ok 0 := by
  constructor
  · decide
  · decide

/-- C6, amended: `Schema.resolve` gives alias matches no precedence. A column
matches when (no qualifier searched and its alias equals the name) or (its
qualifier is compatible and its column name equals the name); resolve returns
the unique matching index, raises unknown-column on zero matches and
ambiguous-column on two or more — in particular whenever one column's alias
and a different column's name both equal the searched name under no
qualifier. -/
theorem C6_amended_resolve_characterization (s : Schema)
    (sq : Option String) (sn : String) :
    ((s.columns.enum.filter (fun p => p.2.matches_search sq sn)) = [] →
      s.resolve sq sn = .error .unknownColumn)
  ∧ (2 ≤ (s.columns.enum.filter (fun p => p.2.matches_search sq sn)).length →
      s.resolve sq sn = .error .ambiguousColumn)
  ∧ (∀ i c, (s.columns.enum.filter (fun p => p.2.matches_search sq sn)) = [(i, c)] →
      s.resolve sq sn = .ok i)
  ∧ (∀ i j ci cj, (i, ci) ∈ s.columns.enum → (j, cj) ∈ s.columns.enum →
      i ≠ j → sq = none → ci.aliasName = some sn → cj.name = sn →
      s.resolve sq sn = .error .ambiguousColumn) := by
  have hamb : 2 ≤ (s.columns.enum.filter (fun p => p.2.matches_search sq sn)).length →
      s.resolve sq sn = .error .ambiguousColumn := by
    intro h2
    cases hm : s.columns.enum.filter (fun p => p.2.matches_search sq sn) with
    | nil => rw [hm] at h2; simp at h2
    | cons a rest =>
        rw [hm] at h2
        simp only [List.length_cons] at h2
        have hrest : rest ≠ [] := by
          intro h0
          rw [h0] at h2
          simp at h2
        simp only [Schema.resolve, hm]
        have hlen : 1 < (((a :: rest).map Prod.fst) : List Nat).length := by
          simp only [List.length_map, List.length_cons]
          have := List.length_pos.mpr hrest
          omega
        simp [hlen, List.isEmpty_iff, Nat.lt_irrefl, hrest]
  refine ⟨?_, hamb, ?_, ?_⟩
  · intro h
    simp [Schema.resolve, h]
  · intro i c h
    simp [Schema.resolve, h]
  · intro i j ci cj hi hj hij hsq hali hname
    subst hsq
    have hci : ci.matches_search none sn = true := by
      simp [ColumnIdentifier.matches_search, hali]
    have hcj : cj.matches_search none sn = true := by
      unfold ColumnIdentifier.matches_search
      by_cases halj : (none : Option String) = none ∧ cj.aliasName = some sn
      · simp [halj]
      · simp [halj, hname]
    have hmi : (i, ci) ∈ s.columns.enum.filter
        (fun p => p.2.matches_search none sn) :=
      List.mem_filter.mpr ⟨hi, hci⟩
    have hmj : (j, cj) ∈ s.columns.enum.filter
        (fun p => p.2.matches_search none sn) :=
      List.mem_filter.mpr ⟨hj, hcj⟩
    have hne : ((i, ci) : Nat × ColumnIdentifier) ≠ (j, cj) := by
      intro h0
      exact hij (congrArg Prod.fst h0)
    exact hamb (two_le_length_of_mem_ne hmi hmj hne)

/-- C6, witness: on a one-column schema the unique name match resolves to
index 0. -/
theorem C6_amended_resolve_characterization_witness :
    Schema.resolve ⟨[⟨"a", none, none, false⟩]⟩ none "a" = .ok 0 :=
  (C6_amended_resolve_characterization ⟨[⟨"a", none, none, false⟩]⟩
    none "a").2.2.1 0 ⟨"a", none, none, false⟩ (by decide)

/-! ## Claim C7 -/

theorem distinctRun_eq_spec (idxs : List Nat) :
    ∀ (rows seen out s : List (List Int)),
      distinctRun idxs rows seen = .ok (out, s) →
      out = specFirstOccur idxs rows seen := by
  intro rows
  induction rows with
  | nil =>
      intro seen out s h
      simp only [distinctRun] at h
      cases h
      rfl
  | cons r rest ih =>
      intro seen out s h
      simp only [distinctRun] at h
      cases hk : rowKey idxs r with
      | error e => rw [hk] at h; cases h
      | ok k =>
          rw [hk] at h
          dsimp only at h
          have hkval : k = idxs.map (fun i => r.getD i 0) := by
            unfold rowKey at hk
            cases hb : idxs.all (fun i => decide (i < r.length)) with
            | true => rw [hb] at hk; simp at hk; simpa using hk.symm
            | false => rw [hb] at hk; simp at hk
          subst hkval
          cases hc : seen.contains (idxs.map (fun i => r.getD i 0)) with
          | true =>
              simp only [hc, if_true] at h
              simp only [specFirstOccur, hc, if_true]
              exact ih seen out s h
          | false =>
              simp only [hc, Bool.false_eq_true, if_false] at h
              cases hrec : distinctRun idxs rest
                  (seen ++ [idxs.map (fun i => r.getD i 0)]) with
              | error e => rw [hrec] at h; cases h
              | ok p =>
                  obtain ⟨out2, s2⟩ := p
                  rw [hrec] at h
                  dsimp only at h
                  cases h
                  simp only [specFirstOccur, hc, Bool.false_eq_true, if_false]
                  exact congrArg (r :: ·) (ih _ _ _ hrec)

theorem distinctRun_seen (idxs : List Nat) :
    ∀ (rows seen out s : List (List Int)),
      distinctRun idxs rows seen = .ok (out, s) →
      (∀ x ∈ seen, x ∈ s) ∧
      ∀ r ∈ rows, rowKey idxs r = .ok (idxs.map (fun i => r.getD i 0)) ∧
        (idxs.map (fun i => r.getD i 0)) ∈ s := by
  intro rows
  induction rows with
  | nil =>
      intro seen out s h
      simp only [distinctRun] at h
      cases h
      exact ⟨fun x hx => hx, by simp⟩
  | cons r rest ih =>
      intro seen out s h
      simp only [distinctRun] at h
      cases hk : rowKey idxs r with
      | error e => rw [hk] at h; cases h
      | ok k =>
          rw [hk] at h
          dsimp only at h
          have hkval : k = idxs.map (fun i => r.getD i 0) := by
            unfold rowKey at hk
            cases hb : idxs.all (fun i => decide (i < r.length)) with
            | true => rw [hb] at hk; simp at hk; simpa using hk.symm
            | false => rw [hb] at hk; simp at hk
          subst hkval
          cases hc : seen.contains (idxs.map (fun i => r.getD i 0)) with
          | true =>
              simp only [hc, if_true] at h
              obtain ⟨hmono, hall⟩ := ih seen out s h
              refine ⟨hmono, ?_⟩
              intro r2 hr2
              rcases List.mem_cons.mp hr2 with h2 | h2
              · subst h2
                exact ⟨hk, hmono _ (List.mem_of_elem_eq_true hc)⟩
              · exact hall r2 h2
          | false =>
              simp only [hc, Bool.false_eq_true, if_false] at h
              cases hrec : distinctRun idxs rest
                  (seen ++ [idxs.map (fun i => r.getD i 0)]) with
              | error e => rw [hrec] at h; cases h
              | ok p =>
                  obtain ⟨out2, s2⟩ := p
                  rw [hrec] at h
                  dsimp only at h
                  cases h
                  obtain ⟨hmono, hall⟩ := ih _ _ _ hrec
                  refine ⟨fun x hx => hmono x (List.mem_append_left _ hx), ?_⟩
                  intro r2 hr2
                  rcases List.mem_cons.mp hr2 with h2 | h2
                  · subst h2
                    exact ⟨hk, hmono (idxs.map (fun i => r2.getD i 0))
                      (List.mem_append_right _ (List.mem_singleton.mpr rfl))⟩
                  · exact hall r2 h2

theorem distinctRun_all_seen (idxs : List Nat) :
    ∀ (rows seen : List (List Int)),
      (∀ r ∈ rows, rowKey idxs r = .ok (idxs.map (fun i => r.getD i 0)) ∧
        (idxs.map (fun i => r.getD i 0)) ∈ seen) →
      distinctRun idxs rows seen = .ok ([], seen) := by
  intro rows
  induction rows with
  | nil => intro seen _; rfl
  | cons r rest ih =>
      intro seen hall
      obtain ⟨hk, hmem⟩ := hall r (List.mem_cons_self r rest)
      have hcon : seen.contains (idxs.map (fun i => r.getD i 0)) = true :=
        List.elem_eq_true_of_mem hmem
      simp only [distinctRun, hk, hcon, if_true]
      exact ih seen (fun r2 h2 => hall r2 (List.mem_cons_of_mem r h2))

/-- C7, counterexample: the claim says Distinct is restart-safe because the
seen-set is reset at the start of each iteration. The seen-set is in fact
created once in `__init__` and never reset in `next` (src/operators.py lines
265-279): over the child `[[1]]` a first exhausted iteration emits the row
and leaves the key in `unique_keys`, and a second iteration over the same
child emits nothing instead of repeating the first output. -/
theorem C7_counterexample :
    distinctRun [0] [[1]] [] = .ok ([[1]], [[1]])
  ∧ distinctRun [0] [[1]] [[1]] = .ok ([], [[1]])
  ∧ ([] : List (List Int)) ≠ [[1]] := by
  refine ⟨rfl, rfl, by simp⟩

/-- C7, amended: within one iteration Distinct does emit a row exactly the
first time its key is observed (the spec-side `specFirstOccur`); but the
seen-set persists across `next()` invocations, so a second exhausted
iteration over the same child emits no rows at all rather than repeating the
first output. -/
theorem C7_amended_distinct (idxs : List Nat) (rows out s : List (List Int))
    (h : distinctRun idxs rows [] = .ok (out, s)) :
    out = specFirstOccur idxs rows []
  ∧ distinctRun idxs rows s = .ok ([], s) := by
  refine ⟨distinctRun_eq_spec idxs rows [] out s h, ?_⟩
  have h2 := distinctRun_seen idxs rows [] out s h
  exact distinctRun_all_seen idxs rows s h2.2

/-- C7, witness: over the child rows `[[1],[1],[2]]` with key column 0 the
first iteration emits `[[1],[2]]` and the second emits nothing. -/
theorem C7_amended_distinct_witness :
    ([[1], [2]] : List (List Int)) = specFirstOccur [0] [[1], [1], [2]] []
  ∧ distinctRun [0] [[1], [1], [2]] [[1], [2]] = .ok ([], [[1], [2]]) :=
  C7_amended_distinct [0] [[1], [1], [2]] [[1], [2]] [[1], [2]] (by decide)

/-! ## Claim C8 -/

/-- C8: the error policy of `DatabaseEngine.execute`. (1) A tokenize/parse
error is returned with `error` populated, the state untouched and no rollback
— the local `transaction` is still `None` there. (2)-(3) The
transaction-modifier validations raise `ParserError` (non-rollback) before
any transaction exists. (4) A failed transaction lookup is returned without
rollback, `transaction` still being `None` when `get_transaction_by_id`
raises. (5) An error during planning/execution whose kind permits rollback
rolls the resolved transaction back and is returned in `error` with the
transaction reported closed. (6) A planning/execution error flagged
non-rollback is returned in `error` with no rollback. (7) An error inside
`commit()` itself reaches the handler with `transaction` set and rolls back.
In every case a `QueryResult` is returned — `execute` is total. -/
theorem C8_engine_error_policy (st : EngineState) (req : Request)
    (parseO : Except PyErr Ast)
    (planO : Except PyErr (List (List Val) × List String)) :
    (∀ e, parseO = .error e →
      DatabaseEngine.execute st req parseO planO =
        (errorResult e req.transaction_id .statusOpen, st, false))
  ∧ (parseO = .ok .beginStmt → req.transaction_id ≠ -1 →
      DatabaseEngine.execute st req parseO planO =
        (errorResult parserErr req.transaction_id .statusOpen, st, false))
  ∧ ((parseO = .ok .commitStmt ∨ parseO = .ok .rollbackStmt) →
      req.transaction_id = -1 →
      DatabaseEngine.execute st req parseO planO =
        (errorResult parserErr req.transaction_id .statusOpen, st, false))
  ∧ (∀ ast e, parseO = .ok ast → ast ≠ .beginStmt → req.transaction_id ≠ -1 →
      resolveTxn st req = .error e →
      DatabaseEngine.execute st req parseO planO =
        (errorResult e req.transaction_id .statusOpen, st, false))
  ∧ (∀ tx st1 e, parseO = .ok .query → resolveTxn st req = .ok (tx, st1) →
      planO = .error e → e.rollback = true →
      (DatabaseEngine.execute st req parseO planO).2.2 = true ∧
      (DatabaseEngine.execute st req parseO planO).1.error = some e ∧
      (DatabaseEngine.execute st req parseO planO).1.transaction_status
        = .statusClosed)
  ∧ (∀ tx st1 e, parseO = .ok .query → resolveTxn st req = .ok (tx, st1) →
      planO = .error e → e.rollback = false →
      DatabaseEngine.execute st req parseO planO =
        (errorResult e tx.id .statusOpen, st1, false))
  ∧ (∀ tx st1 er tx2 cat2, parseO = .ok .commitStmt →
      req.transaction_id ≠ -1 →
      resolveTxn st req = .ok (tx, st1) →
      tx.commit st1.catalog = (.error er, tx2, cat2) →
      (DatabaseEngine.execute st req parseO planO).2.2 = true ∧
      (DatabaseEngine.execute st req parseO planO).1.error
        = some { rollback := true }) := by
  refine ⟨?_, ?_, ?_, ?_, ?_, ?_, ?_⟩
  · intro e h
    rw [h]
    rfl
  · intro hp htid
    rw [hp]
    simp [DatabaseEngine.execute, htid]
  · intro hp htid
    rcases hp with hp | hp <;> rw [hp] <;>
      simp [DatabaseEngine.execute, htid]
  · intro ast e hp hne htid hres
    rw [hp]
    cases ast with
    | beginStmt => exact absurd rfl hne
    | commitStmt => simp [DatabaseEngine.execute, htid, hres]
    | rollbackStmt => simp [DatabaseEngine.execute, htid, hres]
    | query => simp [DatabaseEngine.execute, htid, hres]
  · intro tx st1 e hp hres hplan hflag
    rw [hp, hplan]
    simp [DatabaseEngine.execute, hres, hflag, errorResult]
  · intro tx st1 e hp hres hplan hflag
    rw [hp, hplan]
    simp [DatabaseEngine.execute, hres, hflag]
  · intro tx st1 er tx2 cat2 hp htid hres hcommit
    rw [hp]
    simp [DatabaseEngine.execute, htid, hres, hcommit, errorResult]

/-- C8, witness: a parse failure on a fresh engine is returned as an error
without rollback, and a rollback-flagged execution failure inside an open
transaction triggers the rollback and reports the error. -/
theorem C8_engine_error_policy_witness :
    (DatabaseEngine.execute ⟨⟨[], [], 0, []⟩, []⟩ ⟨-1, true⟩
        (.error ⟨false⟩) (.ok ([], [])) =
      (errorResult ⟨false⟩ (-1) .statusOpen, ⟨⟨[], [], 0, []⟩, []⟩, false))
  ∧ ((DatabaseEngine.execute ⟨⟨[], [], 0, []⟩, [(1, Txn.new 1)]⟩ ⟨1, false⟩
        (.ok .query) (.error ⟨true⟩)).2.2 = true ∧
      (DatabaseEngine.execute ⟨⟨[], [], 0, []⟩, [(1, Txn.new 1)]⟩ ⟨1, false⟩
        (.ok .query) (.error ⟨true⟩)).1.error = some ⟨true⟩ ∧
      (DatabaseEngine.execute ⟨⟨[], [], 0, []⟩, [(1, Txn.new 1)]⟩ ⟨1, false⟩
        (.ok .query) (.error ⟨true⟩)).1.transaction_status = .statusClosed) :=
  ⟨(C8_engine_error_policy ⟨⟨[], [], 0, []⟩, []⟩ ⟨-1, true⟩
      (.error ⟨false⟩) (.ok ([], []))).1 ⟨false⟩ rfl,
   (C8_engine_error_policy ⟨⟨[], [], 0, []⟩, [(1, Txn.new 1)]⟩ ⟨1, false⟩
      (.ok .query) (.error ⟨true⟩)).2.2.2.2.1 (Txn.new 1)
      ⟨⟨[], [], 0, []⟩, [(1, Txn.new 1)]⟩ ⟨true⟩ rfl (by decide) rfl rfl⟩

/-! ## Claim C9 -/

/-- C9: a global aggregation (empty group-key index list) over a child that
yields no rows produces no output rows: the accumulation loop of
`Aggregate.next` never creates a group, so the emission phase yields nothing
— COUNT(*) over an empty input gives an empty result, not a row holding 0.
(The second conjunct: the same holds for any group-key list.) -/
theorem C9_global_aggregate_empty_input (gki : List Nat) (specs : List AggSpec) :
    Aggregate.next [] specs ([] : List (List Val)) = .ok []
  ∧ Aggregate.next gki specs ([] : List (List Val)) = .ok [] :=
  ⟨rfl, rfl⟩

/-! ## Claim C10 -/

/-- C10: `BufferManager.flush` writes exactly the pages that are dirty or
ShadowPages, in pool order, and leaves the pool identical — no eviction, no
reordering, every dirty flag kept. Consequently a dirty page that was just
flushed and never modified again is written to disk a second time when a
later `put` evicts it while its flag is still set. -/
theorem C10_flush_writes_everything_changes_nothing (b : BufferState)
    (p q : PageB) :
    (BufferManager.flush b).2 = b
  ∧ (BufferManager.flush b).1
      = b.buffer.filter (fun r => r.is_dirty || r.isShadow)
  ∧ (∀ rest, b.buffer = p :: rest → p.is_dirty = true →
      (∀ r ∈ b.buffer, r.page_id ≠ q.page_id) →
      b.capacity < b.buffer.length + 1 →
      p ∈ (BufferManager.flush b).1 ∧
      (BufferManager.put (BufferManager.flush b).2 q).1 = [p]) := by
  refine ⟨rfl, rfl, ?_⟩
  intro rest hbuf hdirty hfresh hcap
  constructor
  · refine List.mem_filter.mpr ⟨?_, ?_⟩
    · rw [hbuf]; exact List.mem_cons_self p rest
    · simp [hdirty]
  · have hfilter : (b.buffer.filter (fun r => r.page_id != q.page_id))
        = b.buffer := by
      apply List.filter_eq_self.mpr
      intro a ha
      simpa using hfresh a ha
    show (BufferManager.put b q).1 = [p]
    unfold BufferManager.put
    rw [hfilter, hbuf]
    simp only [List.cons_append]
    have hlen : (p :: (rest ++ [q])).length > b.capacity := by
      have h1 : b.buffer.length = rest.length + 1 := by
        rw [hbuf]; simp
      simp only [List.length_cons, List.length_append, List.length_singleton]
      omega
    rw [if_pos hlen]
    simp [hdirty]

/-- C10, witness: a pool of capacity 1 holding one dirty page writes it on
`flush`, and writes it a second time when inserting a fresh page evicts it. -/
theorem C10_flush_writes_everything_changes_nothing_witness :
    (⟨1, false, true, [7]⟩ : PageB) ∈
      (BufferManager.flush ⟨[⟨1, false, true, [7]⟩], 1⟩).1
  ∧ (BufferManager.put (BufferManager.flush ⟨[⟨1, false, true, [7]⟩], 1⟩).2
      ⟨2, false, true, []⟩).1 = [⟨1, false, true, [7]⟩] :=
  (C10_flush_writes_everything_changes_nothing ⟨[⟨1, false, true, [7]⟩], 1⟩
      ⟨1, false, true, [7]⟩ ⟨2, false, true, []⟩).2.2 [] rfl rfl
      (by decide) (by decide)

end DemoDb
